import Mathlib

/-!
Formal model of the ScorchCrawl MCP server core: the rate-limiting and
concurrency guard (`src/server/src/rate-limiter.ts`), the agent job engine and
stale-job reaper, the local-fetch scraper with its SPA-shell detector, and the
tool-dispatch parameter normalization.  Each definition is a shallow embedding
of the corresponding TypeScript function; JavaScript numbers that hold counters
or timestamps are modelled as `Int`, quota percentages as `Rat`, and JavaScript
`Map` objects as association lists that mirror insertion-order semantics.
-/

namespace ScorchCrawl

set_option maxRecDepth 16384

/-- Lookup in an association list, returning the value of the first entry with
the given key (JavaScript `Map.get`). -/
def alGet {α : Type} : List (String × α) → String → Option α
  | [], _ => none
  | (k', v) :: rest, k => if k' = k then some v else alGet rest k

/-- Lookup with a default value. -/
def alGetD {α : Type} (m : List (String × α)) (k : String) (d : α) : α :=
  (alGet m k).getD d

/-- Update in an association list: replace the first entry with the given key,
or append a new entry (JavaScript `Map.set`, which keeps insertion order). -/
def alSet {α : Type} : List (String × α) → String → α → List (String × α)
  | [], k, v => [(k, v)]
  | (k', v') :: rest, k, v =>
      if k' = k then (k', v) :: rest else (k', v') :: alSet rest k v

/-- Remove the first entry with the given key (JavaScript `Map.delete`). -/
def alErase {α : Type} : List (String × α) → String → List (String × α)
  | [], _ => []
  | (k', v') :: rest, k => if k' = k then rest else (k', v') :: alErase rest k

/-- Sum of the integer values stored in an association list. -/
def alSumInt (m : List (String × Int)) : Int :=
  (m.map Prod.snd).sum

/-- Test whether the second list begins with the first list. -/
def charsBegin : List Char → List Char → Bool
  | _, [] => true
  | [], _ :: _ => false
  | c :: cs, p :: ps => c = p && charsBegin cs ps

/-- Test whether a character list contains the pattern as a contiguous run. -/
def charsHave (pat : List Char) : List Char → Bool
  | [] => charsBegin [] pat
  | c :: cs => charsBegin (c :: cs) pat || charsHave pat cs

/-- Substring test on strings (JavaScript `String.includes`). -/
def strIncludes (s pat : String) : Bool :=
  charsHave pat.data s.data

/-- Test whether a string begins with a pattern (JavaScript
`String.startsWith`). -/
def strBegins (s pat : String) : Bool :=
  charsBegin s.data pat.data

/-- Whitespace as matched by the JavaScript regular expression class. -/
def isWsChar (c : Char) : Bool :=
  c = ' ' || c = '\t' || c = '\n' || c = '\r' || c.toNat = 11 || c.toNat = 12

/-- Split a character list into its maximal runs of non-whitespace characters;
the first argument accumulates the current run in reverse. -/
def splitWsAux (cur : List Char) : List Char → List (List Char)
  | [] => if cur.isEmpty then [] else [cur.reverse]
  | c :: rest =>
      if isWsChar c then
        if cur.isEmpty then splitWsAux [] rest
        else cur.reverse :: splitWsAux [] rest
      else splitWsAux (c :: cur) rest

/-- Interleave a single space between tokens. -/
def joinSpaces : List (List Char) → List Char
  | [] => []
  | [t] => t
  | t :: ts => t ++ ' ' :: joinSpaces ts

/-- Collapse every whitespace run to one space and trim the ends: the effect of
the source expression that replaces every whitespace run with one space and
trims the result. -/
def collapseWs (s : String) : String :=
  String.mk (joinSpaces (splitWsAux [] s.data))

/-- Lowercase a string (JavaScript `String.toLowerCase` on ASCII content). -/
def lowerStr (s : String) : String :=
  String.mk (s.data.map Char.toLower)

/-- Trim whitespace from both ends (JavaScript `String.trim`). -/
def jsTrim (s : String) : String :=
  String.mk (((s.data.dropWhile isWsChar).reverse.dropWhile isWsChar).reverse)

/-- Join a list of strings with a comma-space separator (the Array join used
by the source). -/
def joinComma : List String → String
  | [] => ""
  | [x] => x
  | x :: rest => x ++ ", " ++ joinComma rest

/-- Deduplication worker: drop elements already seen, keeping first
occurrences in order. -/
def dedupFirstAux (seen : List String) : List String → List String
  | [] => []
  | x :: xs =>
      if x ∈ seen then dedupFirstAux seen xs
      else x :: dedupFirstAux (seen ++ [x]) xs

/-- Deduplicate keeping the first occurrence of each element, preserving
order: the effect of `[...new Set(list)]` in the source. -/
def dedupFirst (l : List String) : List String :=
  dedupFirstAux [] l

/-- JavaScript value model for the parameter objects handled by the tool
dispatch layer (`removeEmptyTopLevel` in the MCP server source). -/
inductive JValue where
  | nullv
  | boolv (b : Bool)
  | numv (n : Int)
  | strv (s : String)
  | arrv (elems : List JValue)
  | objv (fields : List (String × JValue))

/-- Decide whether `removeEmptyTopLevel` keeps a value: the source skips
`null`, strings whose trim is empty, empty arrays, and objects with no keys. -/
def keepEntry : JValue → Bool
  | JValue.nullv => false
  | JValue.strv s => !(jsTrim s = "")
  | JValue.arrv es => !(es.length = 0)
  | JValue.objv fs => !(fs.length = 0)
  | _ => true

/-- Embedding of `removeEmptyTopLevel` from the MCP server: iterate over the
entries of the parameter object and keep exactly those whose value is not an
empty leaf. -/
def removeEmptyTopLevel (obj : List (String × JValue)) : List (String × JValue) :=
  obj.filter (fun kv => keepEntry kv.2)

/-- Configuration record from `rate-limiter.ts` (`RateLimitConfig`). -/
structure RateLimitConfig where
  maxGlobalConcurrency : Int
  maxPerUserConcurrency : Int
  rateLimitWindowMs : Int
  maxRequestsPerWindow : Nat
  maxGlobalRequestsPerWindow : Nat
  quotaRejectThresholdPercent : Rat
  staleJobTimeoutMs : Int
  gcIntervalMs : Int
deriving Repr, DecidableEq

/-- Default configuration built by `buildRateLimitConfig` with no environment
overrides. -/
def defaultRateLimitConfig : RateLimitConfig where
  maxGlobalConcurrency := 10
  maxPerUserConcurrency := 3
  rateLimitWindowMs := 60000
  maxRequestsPerWindow := 20
  maxGlobalRequestsPerWindow := 60
  quotaRejectThresholdPercent := 5
  staleJobTimeoutMs := 600000
  gcIntervalMs := 60000

/-- Result record shared by all the admission checks (`RateLimitResult`). -/
structure RateLimitResult where
  allowed : Bool
  reason : Option String := none
  retryAfterSeconds : Option Int := none
deriving Repr, DecidableEq

/-- State of `ConcurrencyTracker`: the global in-flight counter and the
per-identity map.  Counters are JavaScript numbers, modelled as `Int`. -/
structure ConcurrencyTracker where
  globalActive : Int
  perUser : List (String × Int)
deriving Repr, DecidableEq

/-- The empty tracker (freshly constructed object). -/
def ctInit : ConcurrencyTracker where
  globalActive := 0
  perUser := []

/-- Embedding of `ConcurrencyTracker.canAcquire`. -/
def ConcurrencyTracker.canAcquire (cfg : RateLimitConfig) (s : ConcurrencyTracker)
    (userKey : String) : RateLimitResult :=
  if cfg.maxGlobalConcurrency ≤ s.globalActive then
    { allowed := false
      reason := some ("Server is at maximum capacity (" ++
        toString cfg.maxGlobalConcurrency ++ " concurrent jobs). Please retry shortly.")
      retryAfterSeconds := some 10 }
  else
    let userCount := alGetD s.perUser userKey 0
    if cfg.maxPerUserConcurrency ≤ userCount then
      { allowed := false
        reason := some ("You already have " ++ toString userCount ++
          " concurrent agent jobs (max " ++ toString cfg.maxPerUserConcurrency ++
          "). Wait for a job to complete before starting another.")
        retryAfterSeconds := some 15 }
    else { allowed := true }

/-- Embedding of `ConcurrencyTracker.acquire`: increment the global counter and
the per-identity count. -/
def ConcurrencyTracker.acquire (s : ConcurrencyTracker) (userKey : String) :
    ConcurrencyTracker where
  globalActive := s.globalActive + 1
  perUser := alSet s.perUser userKey (alGetD s.perUser userKey 0 + 1)

/-- Embedding of `ConcurrencyTracker.release`: saturating decrement of the
global counter (`Math.max(0, g - 1)`), and the per-identity entry is deleted
when its count is at most one, else decremented. -/
def ConcurrencyTracker.release (s : ConcurrencyTracker) (userKey : String) :
    ConcurrencyTracker :=
  let cur := alGetD s.perUser userKey 0
  { globalActive := max 0 (s.globalActive - 1)
    perUser := if cur ≤ 1 then alErase s.perUser userKey
               else alSet s.perUser userKey (cur - 1) }

/-- Snapshot returned by `ConcurrencyTracker.stats`. -/
structure ConcurrencyStats where
  global : Int
  perUser : List (String × Int)
deriving Repr, DecidableEq

/-- Embedding of `ConcurrencyTracker.stats`. -/
def ConcurrencyTracker.stats (s : ConcurrencyTracker) : ConcurrencyStats where
  global := s.globalActive
  perUser := s.perUser

/-- An acquire or release call on the tracker, tagged with its identity key. -/
inductive CtOp where
  | acq (k : String)
  | rel (k : String)
deriving Repr, DecidableEq

/-- Run a sequence of tracker calls. -/
def ctRun (s : ConcurrencyTracker) : List CtOp → ConcurrencyTracker
  | [] => s
  | CtOp.acq k :: rest => ctRun (s.acquire k) rest
  | CtOp.rel k :: rest => ctRun (s.release k) rest

/-- A call sequence has matching identities when every release finds a strictly
positive outstanding count for its identity; the counter map evolves exactly as
the tracker evolves it. -/
def balancedFrom (m : List (String × Int)) : List CtOp → Bool
  | [] => true
  | CtOp.acq k :: rest => balancedFrom (alSet m k (alGetD m k 0 + 1)) rest
  | CtOp.rel k :: rest =>
      let cur := alGetD m k 0
      decide (0 < cur) &&
        balancedFrom (if cur ≤ 1 then alErase m k else alSet m k (cur - 1)) rest

/-- Net number of acquires minus releases in a call sequence. -/
def pendTotal : List CtOp → Int
  | [] => 0
  | CtOp.acq _ :: rest => 1 + pendTotal rest
  | CtOp.rel _ :: rest => -1 + pendTotal rest

/-- Net number of acquires minus releases for one identity. -/
def pendK (k : String) : List CtOp → Int
  | [] => 0
  | CtOp.acq k' :: rest => (if k' = k then 1 else 0) + pendK k rest
  | CtOp.rel k' :: rest => (if k' = k then -1 else 0) + pendK k rest

theorem alGet_alSet_self {α : Type} (m : List (String × α)) (k : String) (v : α) :
    alGet (alSet m k v) k = some v := by
  induction m with
  | nil => simp [alSet, alGet]
  | cons p rest ih =>
      obtain ⟨k', v'⟩ := p
      by_cases h : k' = k
      · simp [alSet, alGet, h]
      · simp [alSet, alGet, h, ih]

theorem alGet_alSet_ne {α : Type} (m : List (String × α)) (k k' : String) (v : α)
    (h : k' ≠ k) : alGet (alSet m k v) k' = alGet m k' := by
  induction m with
  | nil => simp [alSet, alGet, Ne.symm h]
  | cons p rest ih =>
      obtain ⟨k₀, v₀⟩ := p
      by_cases h₀ : k₀ = k
      · subst h₀
        simp [alSet, alGet, Ne.symm h]
      · by_cases h₁ : k₀ = k'
        · simp [alSet, alGet, h₀, h₁, h]
        · simp [alSet, alGet, h₀, h₁, ih]

theorem alGet_alErase_ne {α : Type} (m : List (String × α)) (k k' : String)
    (h : k' ≠ k) : alGet (alErase m k) k' = alGet m k' := by
  induction m with
  | nil => simp [alErase]
  | cons p rest ih =>
      obtain ⟨k₀, v₀⟩ := p
      by_cases h₀ : k₀ = k
      · subst h₀
        simp [alErase, alGet, Ne.symm h]
      · by_cases h₁ : k₀ = k'
        · simp [alErase, alGet, h₀, h₁, h]
        · simp [alErase, alGet, h₀, h₁, ih]

theorem alGet_eq_none_iff {α : Type} (m : List (String × α)) (k : String) :
    alGet m k = none ↔ k ∉ m.map Prod.fst := by
  induction m with
  | nil => simp [alGet]
  | cons p rest ih =>
      obtain ⟨k₀, v₀⟩ := p
      by_cases h₀ : k₀ = k
      · subst h₀
        simp [alGet]
      · simp [alGet, h₀, ih, Ne.symm h₀]

theorem alKeys_alSet_of_none {α : Type} (m : List (String × α)) (k : String) (v : α)
    (h : alGet m k = none) :
    (alSet m k v).map Prod.fst = m.map Prod.fst ++ [k] := by
  induction m with
  | nil => simp [alSet]
  | cons p rest ih =>
      obtain ⟨k₀, v₀⟩ := p
      by_cases h₀ : k₀ = k
      · simp [alGet, h₀] at h
      · simp only [alGet, if_neg h₀] at h
        simp [alSet, h₀, ih h]

theorem alKeys_alSet_of_some {α : Type} (m : List (String × α)) (k : String) (v c : α)
    (h : alGet m k = some c) :
    (alSet m k v).map Prod.fst = m.map Prod.fst := by
  induction m with
  | nil => simp [alGet] at h
  | cons p rest ih =>
      obtain ⟨k₀, v₀⟩ := p
      by_cases h₀ : k₀ = k
      · simp [alSet, h₀]
      · simp only [alGet, if_neg h₀] at h
        simp [alSet, h₀, ih h]

theorem alKeys_alErase_sublist {α : Type} (m : List (String × α)) (k : String) :
    ((alErase m k).map Prod.fst).Sublist (m.map Prod.fst) := by
  induction m with
  | nil => simp [alErase]
  | cons p rest ih =>
      obtain ⟨k₀, v₀⟩ := p
      by_cases h₀ : k₀ = k
      · simpa [alErase, h₀] using List.sublist_cons_self _ _
      · simpa [alErase, h₀] using ih.cons₂ k₀

theorem alGet_alErase_self {α : Type} (m : List (String × α)) (k : String)
    (hnd : (m.map Prod.fst).Nodup) : alGet (alErase m k) k = none := by
  induction m with
  | nil => simp [alErase, alGet]
  | cons p rest ih =>
      obtain ⟨k₀, v₀⟩ := p
      simp only [List.map_cons, List.nodup_cons] at hnd
      by_cases h₀ : k₀ = k
      · subst h₀
        simpa [alErase, alGet_eq_none_iff] using hnd.1
      · simp [alErase, alGet, h₀, ih hnd.2]

theorem alGet_mem {α : Type} (m : List (String × α)) (k : String) (v : α)
    (h : alGet m k = some v) : (k, v) ∈ m := by
  induction m with
  | nil => simp [alGet] at h
  | cons p rest ih =>
      obtain ⟨k₀, v₀⟩ := p
      by_cases h₀ : k₀ = k
      · subst h₀
        have h' : v₀ = v := by simpa [alGet] using h
        subst h'
        exact List.mem_cons_self _ _
      · simp only [alGet, if_neg h₀] at h
        exact List.mem_cons_of_mem _ (ih h)

theorem alSet_mem {α : Type} (m : List (String × α)) (k : String) (v : α)
    (p : String × α) (h : p ∈ alSet m k v) : p ∈ m ∨ p = (k, v) := by
  induction m with
  | nil =>
      simp [alSet] at h
      exact Or.inr h
  | cons q rest ih =>
      obtain ⟨k₀, v₀⟩ := q
      by_cases h₀ : k₀ = k
      · subst h₀
        have h' : p = (k₀, v) ∨ p ∈ rest := by simpa [alSet] using h
        rcases h' with h' | h'
        · exact Or.inr h'
        · exact Or.inl (List.mem_cons_of_mem _ h')
      · simp only [alSet, if_neg h₀, List.mem_cons] at h
        rcases h with h | h
        · exact Or.inl (by simp [h])
        · rcases ih h with h' | h'
          · exact Or.inl (List.mem_cons_of_mem _ h')
          · exact Or.inr h'

theorem alErase_mem {α : Type} (m : List (String × α)) (k : String)
    (p : String × α) (h : p ∈ alErase m k) : p ∈ m := by
  induction m with
  | nil => simpa [alErase] using h
  | cons q rest ih =>
      obtain ⟨k₀, v₀⟩ := q
      by_cases h₀ : k₀ = k
      · simp only [alErase, if_pos h₀] at h
        exact List.mem_cons_of_mem _ h
      · simp only [alErase, if_neg h₀, List.mem_cons] at h
        rcases h with h | h
        · simp [h]
        · exact List.mem_cons_of_mem _ (ih h)

theorem alSumInt_alSet_of_some (m : List (String × Int)) (k : String) (v c : Int)
    (h : alGet m k = some c) : alSumInt (alSet m k v) = alSumInt m - c + v := by
  induction m with
  | nil => simp [alGet] at h
  | cons p rest ih =>
      obtain ⟨k₀, v₀⟩ := p
      by_cases h₀ : k₀ = k
      · simp only [alGet, if_pos h₀, Option.some.injEq] at h
        subst h
        simp [alSet, h₀, alSumInt]
        ring
      · simp only [alGet, if_neg h₀] at h
        simp only [alSet, if_neg h₀]
        simp only [alSumInt, List.map_cons, List.sum_cons] at ih ⊢
        rw [ih h]
        ring

theorem alSumInt_alSet_of_none (m : List (String × Int)) (k : String) (v : Int)
    (h : alGet m k = none) : alSumInt (alSet m k v) = alSumInt m + v := by
  induction m with
  | nil => simp [alSet, alSumInt]
  | cons p rest ih =>
      obtain ⟨k₀, v₀⟩ := p
      by_cases h₀ : k₀ = k
      · simp [alGet, h₀] at h
      · simp only [alGet, if_neg h₀] at h
        simp only [alSet, if_neg h₀]
        simp only [alSumInt, List.map_cons, List.sum_cons] at ih ⊢
        rw [ih h]
        ring

theorem alSumInt_alErase_of_some (m : List (String × Int)) (k : String) (c : Int)
    (hnd : (m.map Prod.fst).Nodup) (h : alGet m k = some c) :
    alSumInt (alErase m k) = alSumInt m - c := by
  induction m with
  | nil => simp [alGet] at h
  | cons p rest ih =>
      obtain ⟨k₀, v₀⟩ := p
      simp only [List.map_cons, List.nodup_cons] at hnd
      by_cases h₀ : k₀ = k
      · simp only [alGet, if_pos h₀, Option.some.injEq] at h
        subst h
        simp [alErase, h₀, alSumInt]
      · simp only [alGet, if_neg h₀] at h
        simp only [alErase, if_neg h₀]
        simp only [alSumInt, List.map_cons, List.sum_cons] at ih ⊢
        rw [ih hnd.2 h]
        ring

theorem le_alSumInt_of_mem (m : List (String × Int)) (k : String) (c : Int)
    (hpos : ∀ p ∈ m, 0 ≤ p.2) (hmem : (k, c) ∈ m) : c ≤ alSumInt m := by
  have hc : c ∈ m.map Prod.snd := List.mem_map.mpr ⟨(k, c), hmem, rfl⟩
  have hall : ∀ x ∈ m.map Prod.snd, 0 ≤ x := by
    intro x hx
    rcases List.mem_map.mp hx with ⟨p, hp, hxp⟩
    exact hxp ▸ hpos p hp
  exact List.single_le_sum hall c hc

/-- State invariant maintained by well-matched tracker traces: keys are
distinct, stored counts are strictly positive, and the global counter equals
the sum of the per-identity counts. -/
def ctGood (s : ConcurrencyTracker) : Prop :=
  (s.perUser.map Prod.fst).Nodup ∧ (∀ p ∈ s.perUser, 0 < p.2) ∧
    s.globalActive = alSumInt s.perUser

theorem ctGood_acquire (s : ConcurrencyTracker) (k : String) (h : ctGood s) :
    ctGood (s.acquire k) ∧
      (s.acquire k).globalActive = s.globalActive + 1 ∧
      alGetD (s.acquire k).perUser k 0 = alGetD s.perUser k 0 + 1 ∧
      ∀ j, j ≠ k → alGetD (s.acquire k).perUser j 0 = alGetD s.perUser j 0 := by
  obtain ⟨hnd, hpos, hsum⟩ := h
  have hpu : (s.acquire k).perUser = alSet s.perUser k (alGetD s.perUser k 0 + 1) := rfl
  have hg0 : 0 ≤ alGetD s.perUser k 0 := by
    rcases hget : alGet s.perUser k with _ | c
    · simp [alGetD, hget]
    · have hc : (0:Int) < c := hpos _ (alGet_mem _ _ _ hget)
      simp [alGetD, hget]
      omega
  refine ⟨⟨?_, ?_, ?_⟩, rfl, ?_, ?_⟩
  · rcases hget : alGet s.perUser k with _ | c
    · have hk : k ∉ s.perUser.map Prod.fst := (alGet_eq_none_iff _ _).mp hget
      rw [hpu, alKeys_alSet_of_none _ _ _ hget]
      simp [List.nodup_append, hnd, hk]
    · rw [hpu, alKeys_alSet_of_some _ _ _ _ hget]
      exact hnd
  · intro p hp
    rw [hpu] at hp
    rcases alSet_mem _ _ _ _ hp with hmem | heq
    · exact hpos p hmem
    · rw [heq]
      change 0 < alGetD s.perUser k 0 + 1
      omega
  · show s.globalActive + 1 = alSumInt (s.acquire k).perUser
    rw [hpu]
    rcases hget : alGet s.perUser k with _ | c
    · have h0 : alGetD s.perUser k 0 = 0 := by simp [alGetD, hget]
      rw [alSumInt_alSet_of_none _ _ _ hget, hsum, h0]
      ring
    · have h0 : alGetD s.perUser k 0 = c := by simp [alGetD, hget]
      rw [alSumInt_alSet_of_some _ _ _ _ hget, hsum, h0]
      ring
  · rw [hpu]
    simp [alGetD, alGet_alSet_self]
  · intro j hj
    rw [hpu]
    simp [alGetD, alGet_alSet_ne _ _ _ _ hj]

theorem ctGood_release (s : ConcurrencyTracker) (k : String) (h : ctGood s)
    (hcur : 0 < alGetD s.perUser k 0) :
    ctGood (s.release k) ∧
      (s.release k).globalActive = s.globalActive - 1 ∧
      alGetD (s.release k).perUser k 0 = alGetD s.perUser k 0 - 1 ∧
      ∀ j, j ≠ k → alGetD (s.release k).perUser j 0 = alGetD s.perUser j 0 := by
  obtain ⟨hnd, hpos, hsum⟩ := h
  have hget : alGet s.perUser k = some (alGetD s.perUser k 0) := by
    rcases hg : alGet s.perUser k with _ | c
    · simp [alGetD, hg] at hcur
    · simp [alGetD, hg]
  have hle : alGetD s.perUser k 0 ≤ alSumInt s.perUser :=
    le_alSumInt_of_mem _ _ _ (fun p hp => le_of_lt (hpos p hp)) (alGet_mem _ _ _ hget)
  have hga : 1 ≤ s.globalActive := by rw [hsum]; omega
  have hglob : (s.release k).globalActive = s.globalActive - 1 := by
    show max 0 (s.globalActive - 1) = s.globalActive - 1
    omega
  by_cases hc1 : alGetD s.perUser k 0 ≤ 1
  · have hone : alGetD s.perUser k 0 = 1 := by omega
    have hpu : (s.release k).perUser = alErase s.perUser k := by
      show (if alGetD s.perUser k 0 ≤ 1 then _ else _) = _
      rw [if_pos hc1]
    refine ⟨⟨?_, ?_, ?_⟩, hglob, ?_, ?_⟩
    · rw [hpu]
      exact hnd.sublist (alKeys_alErase_sublist _ _)
    · intro p hp
      rw [hpu] at hp
      exact hpos p (alErase_mem _ _ _ hp)
    · rw [hglob, hpu, alSumInt_alErase_of_some _ _ _ hnd hget, ← hsum]
      omega
    · rw [hpu]
      have hz : alGet (alErase s.perUser k) k = none := alGet_alErase_self _ _ hnd
      show (alGet (alErase s.perUser k) k).getD 0 = alGetD s.perUser k 0 - 1
      rw [hz, hone]
      decide
    · intro j hj
      rw [hpu]
      simp [alGetD, alGet_alErase_ne _ _ _ hj]
  · have hpu : (s.release k).perUser = alSet s.perUser k (alGetD s.perUser k 0 - 1) := by
      show (if alGetD s.perUser k 0 ≤ 1 then _ else _) = _
      rw [if_neg hc1]
    refine ⟨⟨?_, ?_, ?_⟩, hglob, ?_, ?_⟩
    · rw [hpu, alKeys_alSet_of_some _ _ _ _ hget]
      exact hnd
    · intro p hp
      rw [hpu] at hp
      rcases alSet_mem _ _ _ _ hp with hmem | heq
      · exact hpos p hmem
      · rw [heq]
        change 0 < alGetD s.perUser k 0 - 1
        omega
    · rw [hglob, hpu, alSumInt_alSet_of_some _ _ _ _ hget, ← hsum]
      omega
    · rw [hpu]
      simp [alGetD, alGet_alSet_self]
    · intro j hj
      rw [hpu]
      simp [alGetD, alGet_alSet_ne _ _ _ _ hj]

theorem ctRun_invariant : ∀ (ops : List CtOp) (s : ConcurrencyTracker),
    ctGood s → balancedFrom s.perUser ops = true →
    ctGood (ctRun s ops) ∧
      (ctRun s ops).globalActive = s.globalActive + pendTotal ops ∧
      ∀ j, alGetD (ctRun s ops).perUser j 0 = alGetD s.perUser j 0 + pendK j ops := by
  intro ops
  induction ops with
  | nil =>
      intro s hg _
      exact ⟨hg, by simp [ctRun, pendTotal], fun j => by simp [ctRun, pendK]⟩
  | cons op rest ih =>
      intro s hg hbal
      cases op with
      | acq k =>
          obtain ⟨hga, hgb, hgc, hgd⟩ := ctGood_acquire s k hg
          have hbal' : balancedFrom (s.acquire k).perUser rest = true := hbal
          obtain ⟨ih1, ih2, ih3⟩ := ih (s.acquire k) hga hbal'
          refine ⟨ih1, ?_, ?_⟩
          · show (ctRun (s.acquire k) rest).globalActive = _
            rw [ih2, hgb]
            simp only [pendTotal]
            ring
          · intro j
            show alGetD (ctRun (s.acquire k) rest).perUser j 0 = _
            rw [ih3 j]
            by_cases hj : j = k
            · subst hj
              rw [hgc]
              simp only [pendK, if_true]
              ring
            · rw [hgd j hj]
              have hkj : ¬(k = j) := fun hh => hj hh.symm
              simp only [pendK, if_neg hkj]
              ring
      | rel k =>
          have hbal0 : (decide (0 < alGetD s.perUser k 0) &&
              balancedFrom (s.release k).perUser rest) = true := hbal
          rw [Bool.and_eq_true, decide_eq_true_eq] at hbal0
          obtain ⟨hcur, hbal'⟩ := hbal0
          obtain ⟨hga, hgb, hgc, hgd⟩ := ctGood_release s k hg hcur
          obtain ⟨ih1, ih2, ih3⟩ := ih (s.release k) hga hbal'
          refine ⟨ih1, ?_, ?_⟩
          · show (ctRun (s.release k) rest).globalActive = _
            rw [ih2, hgb]
            simp only [pendTotal]
            ring
          · intro j
            show alGetD (ctRun (s.release k) rest).perUser j 0 = _
            rw [ih3 j]
            by_cases hj : j = k
            · subst hj
              rw [hgc]
              simp only [pendK, if_true]
              ring
            · rw [hgd j hj]
              have hkj : ¬(k = j) := fun hh => hj hh.symm
              simp only [pendK, if_neg hkj]
              ring

theorem ctRun_nonneg : ∀ (ops : List CtOp) (s : ConcurrencyTracker),
    0 ≤ s.globalActive → 0 ≤ (ctRun s ops).globalActive := by
  intro ops
  induction ops with
  | nil => intro s h; simpa [ctRun] using h
  | cons op rest ih =>
      intro s h
      cases op with
      | acq k =>
          refine ih _ ?_
          change 0 ≤ s.globalActive + 1
          omega
      | rel k =>
          refine ih _ ?_
          change 0 ≤ max 0 (s.globalActive - 1)
          omega

theorem alSumInt_nonneg (m : List (String × Int)) (h : ∀ p ∈ m, 0 ≤ p.2) :
    0 ≤ alSumInt m := by
  refine List.sum_nonneg ?_
  intro x hx
  rcases List.mem_map.mp hx with ⟨p, hp, hxp⟩
  exact hxp ▸ h p hp

/-- C2: for every sequence of `ConcurrencyTracker` acquire and release calls
with matching identities (every release finds a positive outstanding count for
its identity), `stats().global` equals the number of outstanding acquires and
is non-negative, the sum of the per-identity counts equals the global counter,
the map entry of an identity is removed exactly when its outstanding count reaches
zero (and otherwise stores that count), and on arbitrary sequences unmatched
releases are absorbed: the saturating decrement keeps the global counter
non-negative. -/
theorem concurrencyTracker_stats_invariants (ops : List CtOp)
    (hbal : balancedFrom [] ops = true) :
    ((ctRun ctInit ops).stats.global = pendTotal ops ∧
      0 ≤ (ctRun ctInit ops).stats.global) ∧
    alSumInt ((ctRun ctInit ops).stats.perUser) = (ctRun ctInit ops).stats.global ∧
    (∀ k, alGet ((ctRun ctInit ops).stats.perUser) k = none ↔ pendK k ops = 0) ∧
    (∀ k n, alGet ((ctRun ctInit ops).stats.perUser) k = some n → n = pendK k ops) ∧
    (∀ other : List CtOp, 0 ≤ (ctRun ctInit other).stats.global) := by
  have hgood : ctGood ctInit :=
    ⟨by simp [ctInit], by simp [ctInit], by simp [ctInit, alSumInt]⟩
  have hbal' : balancedFrom ctInit.perUser ops = true := hbal
  obtain ⟨⟨hnd, hpos, hsum⟩, hglob, hget⟩ := ctRun_invariant ops ctInit hgood hbal'
  have hz : ctInit.globalActive = 0 := rfl
  have hpz : ∀ k, alGetD ctInit.perUser k 0 = 0 := fun k => rfl
  have hglob' : (ctRun ctInit ops).globalActive = pendTotal ops := by
    rw [hglob, hz]
    ring
  simp only [ConcurrencyTracker.stats]
  refine ⟨⟨hglob', ?_⟩, ?_, ?_, ?_, ?_⟩
  · rw [hsum]
    exact alSumInt_nonneg _ fun p hp => le_of_lt (hpos p hp)
  · exact hsum.symm
  · intro k
    have hk := hget k
    rw [hpz k] at hk
    constructor
    · intro hnone
      have h0 : alGetD (ctRun ctInit ops).perUser k 0 = 0 := by
        simp [alGetD, hnone]
      omega
    · intro hzero
      rcases hsome : alGet (ctRun ctInit ops).perUser k with _ | n
      · rfl
      · have hn : (0:Int) < n := hpos _ (alGet_mem _ _ _ hsome)
        have h0 : alGetD (ctRun ctInit ops).perUser k 0 = n := by
          simp [alGetD, hsome]
        omega
  · intro k n hsome
    have hk := hget k
    rw [hpz k] at hk
    have h0 : alGetD (ctRun ctInit ops).perUser k 0 = n := by
      simp [alGetD, hsome]
    omega
  · intro other
    exact ctRun_nonneg other ctInit (by rw [hz])

theorem concurrencyTracker_stats_invariants_witness :
    ((ctRun ctInit [CtOp.acq "a", CtOp.acq "b", CtOp.acq "a", CtOp.rel "a"]).stats.global =
        pendTotal [CtOp.acq "a", CtOp.acq "b", CtOp.acq "a", CtOp.rel "a"] ∧
      0 ≤ (ctRun ctInit [CtOp.acq "a", CtOp.acq "b", CtOp.acq "a", CtOp.rel "a"]).stats.global) ∧
    alSumInt ((ctRun ctInit [CtOp.acq "a", CtOp.acq "b", CtOp.acq "a", CtOp.rel "a"]).stats.perUser) =
      (ctRun ctInit [CtOp.acq "a", CtOp.acq "b", CtOp.acq "a", CtOp.rel "a"]).stats.global ∧
    (∀ k, alGet ((ctRun ctInit [CtOp.acq "a", CtOp.acq "b", CtOp.acq "a", CtOp.rel "a"]).stats.perUser) k = none ↔
      pendK k [CtOp.acq "a", CtOp.acq "b", CtOp.acq "a", CtOp.rel "a"] = 0) ∧
    (∀ k n, alGet ((ctRun ctInit [CtOp.acq "a", CtOp.acq "b", CtOp.acq "a", CtOp.rel "a"]).stats.perUser) k = some n →
      n = pendK k [CtOp.acq "a", CtOp.acq "b", CtOp.acq "a", CtOp.rel "a"]) ∧
    (∀ other : List CtOp, 0 ≤ (ctRun ctInit other).stats.global) :=
  concurrencyTracker_stats_invariants
    [CtOp.acq "a", CtOp.acq "b", CtOp.acq "a", CtOp.rel "a"] (by decide)

/-- C9: the tool-dispatch empty-leaf stripper `removeEmptyTopLevel` is
idempotent: applying it twice to any parameter object equals applying it once,
because the first application removes every null, empty-string, empty-array
and empty-object leaf and the kept entries are stable under the filter. -/
theorem removeEmptyTopLevel_idempotent (obj : List (String × JValue)) :
    removeEmptyTopLevel (removeEmptyTopLevel obj) = removeEmptyTopLevel obj := by
  simp [removeEmptyTopLevel, List.filter_filter]

/-- State of `SlidingWindowRateLimiter`: per-identity timestamp sequences and
the global sequence. -/
structure SlidingWindow where
  perUser : List (String × List Int)
  globalTimestamps : List Int
deriving Repr, DecidableEq

/-- The empty limiter (freshly constructed object). -/
def swInit : SlidingWindow where
  perUser := []
  globalTimestamps := []

/-- Value of `Math.ceil(x / 1000)` on an integer number of milliseconds. -/
def jsCeilDiv1000 (x : Int) : Int :=
  -(Int.ediv (-x) 1000)

/-- Global timestamp sequence after pruning entries at or before
`now - windowMs` (the filter keeps `t > windowStart`). -/
def prunedGlobal (cfg : RateLimitConfig) (s : SlidingWindow) (now : Int) : List Int :=
  s.globalTimestamps.filter (fun t => decide (now - cfg.rateLimitWindowMs < t))

/-- Identity timestamp sequence after the same pruning. -/
def prunedUser (cfg : RateLimitConfig) (s : SlidingWindow) (userKey : String)
    (now : Int) : List Int :=
  (alGetD s.perUser userKey []).filter (fun t => decide (now - cfg.rateLimitWindowMs < t))

/-- Rejection message of the global branch.  The window length in seconds is
rendered with integer division as a display approximation. -/
def globalRateMsg (cfg : RateLimitConfig) : String :=
  "Global rate limit reached (" ++ toString cfg.maxGlobalRequestsPerWindow ++
    " requests per " ++ toString (Int.ediv cfg.rateLimitWindowMs 1000) ++
    "s window). Please wait."

/-- Rejection message of the per-identity branch. -/
def userRateMsg (cfg : RateLimitConfig) : String :=
  "Rate limit reached (" ++ toString cfg.maxRequestsPerWindow ++
    " requests per " ++ toString (Int.ediv cfg.rateLimitWindowMs 1000) ++
    "s window). Please wait."

/-- Embedding of `SlidingWindowRateLimiter.check`: prune and store the global
sequence, reject when it has reached the global limit; else prune and store the
identity sequence and apply the per-identity limit.  The source reads the
oldest remaining entry as `pruned[0]`; timestamps are appended in
non-decreasing order, so the first entry is the oldest.  Returns the result
together with the mutated state. -/
def SlidingWindow.check (cfg : RateLimitConfig) (s : SlidingWindow)
    (userKey : String) (now : Int) : RateLimitResult × SlidingWindow :=
  if cfg.maxGlobalRequestsPerWindow ≤ (prunedGlobal cfg s now).length then
    ({ allowed := false
       reason := some (globalRateMsg cfg)
       retryAfterSeconds := some (max 1 (jsCeilDiv1000
         ((prunedGlobal cfg s now).headI + cfg.rateLimitWindowMs - now))) },
     { s with globalTimestamps := prunedGlobal cfg s now })
  else
    if cfg.maxRequestsPerWindow ≤ (prunedUser cfg s userKey now).length then
      ({ allowed := false
         reason := some (userRateMsg cfg)
         retryAfterSeconds := some (max 1 (jsCeilDiv1000
           ((prunedUser cfg s userKey now).headI + cfg.rateLimitWindowMs - now))) },
       { globalTimestamps := prunedGlobal cfg s now
         perUser := alSet s.perUser userKey (prunedUser cfg s userKey now) })
    else
      ({ allowed := true },
       { globalTimestamps := prunedGlobal cfg s now
         perUser := alSet s.perUser userKey (prunedUser cfg s userKey now) })

/-- Embedding of `SlidingWindowRateLimiter.record`: append `now` to the global
sequence and to the sequence of the identity. -/
def SlidingWindow.record (s : SlidingWindow) (userKey : String) (now : Int) :
    SlidingWindow where
  globalTimestamps := s.globalTimestamps ++ [now]
  perUser := alSet s.perUser userKey (alGetD s.perUser userKey [] ++ [now])

theorem jsCeilDiv1000_pos (x : Int) (h : 1 ≤ x) : 1 ≤ jsCeilDiv1000 x := by
  unfold jsCeilDiv1000
  have h1 : Int.ediv (-x) 1000 ≤ Int.ediv (-1) 1000 :=
    Int.ediv_le_ediv (by norm_num) (by omega)
  have h2 : Int.ediv (-1) 1000 = -1 := by decide
  omega

theorem sorted_headI_min (l : List Int) (h : List.Pairwise (· ≤ ·) l) :
    ∀ t ∈ l, l.headI ≤ t := by
  cases l with
  | nil => intro t ht; simp at ht
  | cons x xs =>
      intro t ht
      rcases List.mem_cons.mp ht with rfl | ht'
      · simp
      · simpa using (List.pairwise_cons.mp h).1 t ht'

/-- C7: whenever `SlidingWindowRateLimiter.check` rejects (the global or the
per-identity pruned timestamp sequence has reached its window limit), the
result carries `retryAfterSeconds` equal to
`ceil((oldest + windowMs - now) / 1000)` computed from the oldest remaining
timestamp of the sequence that triggered the rejection, and this value is at
least 1.  The stored sequences are sorted, so the first remaining entry is the
oldest; the unsupported degenerate configurations with a zero window limit are
excluded. -/
theorem slidingWindow_retry_after (cfg : RateLimitConfig) (s : SlidingWindow)
    (userKey : String) (now : Int)
    (hgmax : 1 ≤ cfg.maxGlobalRequestsPerWindow)
    (humax : 1 ≤ cfg.maxRequestsPerWindow)
    (hsg : List.Pairwise (· ≤ ·) s.globalTimestamps)
    (hsu : List.Pairwise (· ≤ ·) (alGetD s.perUser userKey []))
    (hrej : (SlidingWindow.check cfg s userKey now).1.allowed = false) :
    ∃ ts : List Int,
      (ts = prunedGlobal cfg s now ∨ ts = prunedUser cfg s userKey now) ∧
      ts ≠ [] ∧
      (∀ t ∈ ts, ts.headI ≤ t) ∧
      now - cfg.rateLimitWindowMs < ts.headI ∧
      (SlidingWindow.check cfg s userKey now).1.retryAfterSeconds =
        some (jsCeilDiv1000 (ts.headI + cfg.rateLimitWindowMs - now)) ∧
      1 ≤ jsCeilDiv1000 (ts.headI + cfg.rateLimitWindowMs - now) := by
  by_cases hG : cfg.maxGlobalRequestsPerWindow ≤ (prunedGlobal cfg s now).length
  · refine ⟨prunedGlobal cfg s now, Or.inl rfl, ?_, ?_, ?_, ?_, ?_⟩
    case _ =>
      intro hnil
      rw [hnil] at hG
      simp at hG
      omega
    case _ =>
      exact sorted_headI_min _ (hsg.sublist (List.filter_sublist _))
    case _ =>
      have hnil : prunedGlobal cfg s now ≠ [] := by
        intro hnil
        rw [hnil] at hG
        simp at hG
        omega
      rcases hp : prunedGlobal cfg s now with _ | ⟨t, ts'⟩
      · exact absurd hp hnil
      · have hmem : t ∈ prunedGlobal cfg s now := by rw [hp]; exact List.mem_cons_self _ _
        have := List.of_mem_filter hmem
        simpa using this
    case _ =>
      have hmax : max 1 (jsCeilDiv1000 ((prunedGlobal cfg s now).headI +
          cfg.rateLimitWindowMs - now)) = jsCeilDiv1000 ((prunedGlobal cfg s now).headI +
          cfg.rateLimitWindowMs - now) := by
        apply max_eq_right
        apply jsCeilDiv1000_pos
        have hnil : prunedGlobal cfg s now ≠ [] := by
          intro hnil
          rw [hnil] at hG
          simp at hG
          omega
        rcases hp : prunedGlobal cfg s now with _ | ⟨t, ts'⟩
        · exact absurd hp hnil
        · have hmem : t ∈ prunedGlobal cfg s now := by rw [hp]; exact List.mem_cons_self _ _
          have hlt := List.of_mem_filter hmem
          simp only [List.headI_cons]
          simp at hlt
          omega
      simp only [SlidingWindow.check, if_pos hG]
      rw [hmax]
    case _ =>
      have hnil : prunedGlobal cfg s now ≠ [] := by
        intro hnil
        rw [hnil] at hG
        simp at hG
        omega
      apply jsCeilDiv1000_pos
      rcases hp : prunedGlobal cfg s now with _ | ⟨t, ts'⟩
      · exact absurd hp hnil
      · have hmem : t ∈ prunedGlobal cfg s now := by rw [hp]; exact List.mem_cons_self _ _
        have hlt := List.of_mem_filter hmem
        simp only [List.headI_cons]
        simp at hlt
        omega
  · by_cases hU : cfg.maxRequestsPerWindow ≤ (prunedUser cfg s userKey now).length
    · refine ⟨prunedUser cfg s userKey now, Or.inr rfl, ?_, ?_, ?_, ?_, ?_⟩
      case _ =>
        intro hnil
        rw [hnil] at hU
        simp at hU
        omega
      case _ =>
        exact sorted_headI_min _ (hsu.sublist (List.filter_sublist _))
      case _ =>
        have hnil : prunedUser cfg s userKey now ≠ [] := by
          intro hnil
          rw [hnil] at hU
          simp at hU
          omega
        rcases hp : prunedUser cfg s userKey now with _ | ⟨t, ts'⟩
        · exact absurd hp hnil
        · have hmem : t ∈ prunedUser cfg s userKey now := by
            rw [hp]; exact List.mem_cons_self _ _
          have := List.of_mem_filter hmem
          simpa using this
      case _ =>
        have hlt1 : now - cfg.rateLimitWindowMs < (prunedUser cfg s userKey now).headI := by
          have hnil : prunedUser cfg s userKey now ≠ [] := by
            intro hnil
            rw [hnil] at hU
            simp at hU
            omega
          rcases hp : prunedUser cfg s userKey now with _ | ⟨t, ts'⟩
          · exact absurd hp hnil
          · have hmem : t ∈ prunedUser cfg s userKey now := by
              rw [hp]; exact List.mem_cons_self _ _
            have hlt := List.of_mem_filter hmem
            simp only [List.headI_cons]
            simp at hlt
            omega
        have hmax : max 1 (jsCeilDiv1000 ((prunedUser cfg s userKey now).headI +
            cfg.rateLimitWindowMs - now)) = jsCeilDiv1000
            ((prunedUser cfg s userKey now).headI + cfg.rateLimitWindowMs - now) := by
          apply max_eq_right
          apply jsCeilDiv1000_pos
          omega
        simp only [SlidingWindow.check, if_neg hG, if_pos hU]
        rw [hmax]
      case _ =>
        have hlt1 : now - cfg.rateLimitWindowMs < (prunedUser cfg s userKey now).headI := by
          have hnil : prunedUser cfg s userKey now ≠ [] := by
            intro hnil
            rw [hnil] at hU
            simp at hU
            omega
          rcases hp : prunedUser cfg s userKey now with _ | ⟨t, ts'⟩
          · exact absurd hp hnil
          · have hmem : t ∈ prunedUser cfg s userKey now := by
              rw [hp]; exact List.mem_cons_self _ _
            have hlt := List.of_mem_filter hmem
            simp only [List.headI_cons]
            simp at hlt
            omega
        apply jsCeilDiv1000_pos
        omega
    · exfalso
      have : (SlidingWindow.check cfg s userKey now).1.allowed = true := by
        simp only [SlidingWindow.check, if_neg hG, if_neg hU]
      rw [this] at hrej
      exact Bool.true_eq_false.mp hrej

/-- Concrete limiter configuration used to exercise the rejection branch: a
per-identity window limit of one request. -/
def swWitnessCfg : RateLimitConfig :=
  { defaultRateLimitConfig with maxRequestsPerWindow := 1 }

/-- Concrete limiter state with one recent timestamp for identity "u". -/
def swWitnessState : SlidingWindow where
  perUser := [("u", [970000])]
  globalTimestamps := []

theorem charsBegin_append (p rest : List Char) : charsBegin (p ++ rest) p = true := by
  induction p with
  | nil => simp [charsBegin]
  | cons c cs ih => simp [charsBegin, ih]

theorem charsHave_self_append (b c : List Char) : charsHave b (b ++ c) = true := by
  cases b with
  | nil => cases c <;> simp [charsHave, charsBegin]
  | cons x xs =>
      have h := charsBegin_append (x :: xs) c
      simp only [charsHave, List.cons_append, Bool.or_eq_true]
      left
      simpa using h

theorem charsHave_append_middle (a b c : List Char) :
    charsHave b (a ++ (b ++ c)) = true := by
  induction a with
  | nil => simpa using charsHave_self_append b c
  | cons x xs ih =>
      simp only [List.cons_append, charsHave, Bool.or_eq_true]
      right
      exact ih

theorem strIncludes_of_parts (s pre pat post : String)
    (h : s.data = pre.data ++ (pat.data ++ post.data)) : strIncludes s pat = true := by
  unfold strIncludes
  rw [h]
  exact charsHave_append_middle _ _ _

/-- Quota snapshot stored per identity (`QuotaInfo`).  The remaining percent is
a JavaScript float modelled exactly as a rational. -/
structure QuotaInfo where
  remainingPercent : Rat
  usedRequests : Int
  entitlementRequests : Int
  isUnlimited : Bool
  resetDate : Option String
  lastUpdated : Int
deriving Repr, DecidableEq

/-- Rendering of `remainingPercent.toFixed(1)`: the percent scaled by ten and
rounded to the nearest integer, printed with one decimal digit (a display
approximation of the JavaScript float formatting). -/
def ratToFixed1 (q : Rat) : String :=
  let n : Int := round (q * 10)
  if 0 ≤ n then toString (n / 10) ++ "." ++ toString (n % 10)
  else "-" ++ toString ((-n) / 10) ++ "." ++ toString ((-n) % 10)

/-- Rejection message built by `QuotaMonitor.check`, embedding the remaining
percent, the used and entitlement request counts, and the reset date when
present. -/
def quotaRejectMessage (info : QuotaInfo) : String :=
  "Copilot quota nearly exhausted (" ++ ratToFixed1 info.remainingPercent ++
    "% remaining, " ++ toString info.usedRequests ++ "/" ++
    toString info.entitlementRequests ++ " used)." ++
    (match info.resetDate with
     | some d => " Quota resets on " ++ d ++ "."
     | none => "") ++ " Upgrade your plan or wait for reset."

/-- Embedding of `QuotaMonitor.check`: allow with no record, with an unlimited
entitlement, or with a record older than five minutes; reject when the
remaining percent is at or below the configured threshold. -/
def QuotaMonitor.check (cfg : RateLimitConfig) (m : List (String × QuotaInfo))
    (userKey : String) (now : Int) : RateLimitResult :=
  match alGet m userKey with
  | none => { allowed := true }
  | some info =>
      if info.isUnlimited then { allowed := true }
      else if 5 * 60 * 1000 < now - info.lastUpdated then { allowed := true }
      else if info.remainingPercent ≤ cfg.quotaRejectThresholdPercent then
        { allowed := false, reason := some (quotaRejectMessage info) }
      else { allowed := true }

theorem quotaRejectMessage_has_reset (info : QuotaInfo) (d : String)
    (hd : info.resetDate = some d) :
    strIncludes (quotaRejectMessage info) d = true := by
  apply strIncludes_of_parts (quotaRejectMessage info)
    ("Copilot quota nearly exhausted (" ++ ratToFixed1 info.remainingPercent ++
      "% remaining, " ++ toString info.usedRequests ++ "/" ++
      toString info.entitlementRequests ++ " used)." ++ " Quota resets on ") d
    ("." ++ " Upgrade your plan or wait for reset.")
  simp [quotaRejectMessage, hd, String.data_append, List.append_assoc]

/-- C5: `QuotaMonitor.check(identity)` allows exactly when no record exists for
the identity, or the record has the unlimited entitlement, or the record is
older than five minutes, or the remaining percent exceeds the threshold;
otherwise it rejects with the reason built from the remaining percent, the
used and entitlement counts, and containing the reset date when present.  In
particular, an identity whose record has the unlimited entitlement is never
rejected. -/
theorem quotaMonitor_check_spec (cfg : RateLimitConfig)
    (m : List (String × QuotaInfo)) (userKey : String) (now : Int) :
    ((QuotaMonitor.check cfg m userKey now).allowed = true ↔
      (alGet m userKey = none ∨ ∃ info, alGet m userKey = some info ∧
        (info.isUnlimited = true ∨ 5 * 60 * 1000 < now - info.lastUpdated ∨
          cfg.quotaRejectThresholdPercent < info.remainingPercent))) ∧
    (∀ info, alGet m userKey = some info →
      (QuotaMonitor.check cfg m userKey now).allowed = false →
      (QuotaMonitor.check cfg m userKey now).reason = some (quotaRejectMessage info) ∧
        ∀ d, info.resetDate = some d →
          strIncludes (quotaRejectMessage info) d = true) ∧
    (∀ info, alGet m userKey = some info → info.isUnlimited = true →
      (QuotaMonitor.check cfg m userKey now).allowed = true) := by
  rcases hget : alGet m userKey with _ | info
  · refine ⟨?_, ?_, ?_⟩
    · simp [QuotaMonitor.check, hget]
    · intro info h
      simp [hget] at h
    · intro info h
      simp [hget] at h
  · have hc : QuotaMonitor.check cfg m userKey now =
        (if info.isUnlimited then { allowed := true }
         else if 5 * 60 * 1000 < now - info.lastUpdated then { allowed := true }
         else if info.remainingPercent ≤ cfg.quotaRejectThresholdPercent then
           ({ allowed := false, reason := some (quotaRejectMessage info) } : RateLimitResult)
         else { allowed := true }) := by
      unfold QuotaMonitor.check
      rw [hget]
    refine ⟨?_, ?_, ?_⟩
    · rw [hc]
      split_ifs with h1 h2 h3
      · constructor
        · intro _
          exact Or.inr ⟨info, rfl, Or.inl h1⟩
        · intro _
          rfl
      · constructor
        · intro _
          exact Or.inr ⟨info, rfl, Or.inr (Or.inl h2)⟩
        · intro _
          rfl
      · constructor
        · intro hfalse
          simp at hfalse
        · intro hor
          exfalso
          rcases hor with hnone | ⟨info', hinfo', hor'⟩
          · cases hnone
          · injection hinfo' with hinj
            subst hinj
            rcases hor' with h | h | h
            · exact h1 h
            · exact h2 h
            · exact absurd h3 (not_le.mpr h)
      · constructor
        · intro _
          exact Or.inr ⟨info, rfl, Or.inr (Or.inr (not_le.mp h3))⟩
        · intro _
          rfl
    · intro info' hinfo' hrej
      injection hinfo' with hinj
      subst hinj
      rw [hc] at hrej ⊢
      split_ifs at hrej ⊢ with h1 h2 h3
      exact ⟨rfl, fun d hd => quotaRejectMessage_has_reset info d hd⟩
    · intro info' hinfo' hunl
      injection hinfo' with hinj
      subst hinj
      rw [hc]
      rw [if_pos hunl]

/-- Concrete quota record used to exercise the rejection branch: five percent
remaining against the default five percent threshold, updated at time 0. -/
def quotaWitnessInfo : QuotaInfo where
  remainingPercent := 5
  usedRequests := 95
  entitlementRequests := 100
  isUnlimited := false
  resetDate := some "2026-11-01"
  lastUpdated := 0

theorem quotaMonitor_check_spec_witness :
    ((QuotaMonitor.check defaultRateLimitConfig [("u", quotaWitnessInfo)] "u" 1000).allowed = true ↔
      (alGet [("u", quotaWitnessInfo)] "u" = none ∨
        ∃ info, alGet [("u", quotaWitnessInfo)] "u" = some info ∧
        (info.isUnlimited = true ∨ 5 * 60 * 1000 < 1000 - info.lastUpdated ∨
          defaultRateLimitConfig.quotaRejectThresholdPercent < info.remainingPercent))) ∧
    (∀ info, alGet [("u", quotaWitnessInfo)] "u" = some info →
      (QuotaMonitor.check defaultRateLimitConfig [("u", quotaWitnessInfo)] "u" 1000).allowed = false →
      (QuotaMonitor.check defaultRateLimitConfig [("u", quotaWitnessInfo)] "u" 1000).reason =
          some (quotaRejectMessage info) ∧
        ∀ d, info.resetDate = some d →
          strIncludes (quotaRejectMessage info) d = true) ∧
    (∀ info, alGet [("u", quotaWitnessInfo)] "u" = some info → info.isUnlimited = true →
      (QuotaMonitor.check defaultRateLimitConfig [("u", quotaWitnessInfo)] "u" 1000).allowed = true) :=
  quotaMonitor_check_spec defaultRateLimitConfig [("u", quotaWitnessInfo)] "u" 1000

theorem slidingWindow_retry_after_witness :
    ∃ ts : List Int,
      (ts = prunedGlobal swWitnessCfg swWitnessState 1000000 ∨
        ts = prunedUser swWitnessCfg swWitnessState "u" 1000000) ∧
      ts ≠ [] ∧
      (∀ t ∈ ts, ts.headI ≤ t) ∧
      1000000 - swWitnessCfg.rateLimitWindowMs < ts.headI ∧
      (SlidingWindow.check swWitnessCfg swWitnessState "u" 1000000).1.retryAfterSeconds =
        some (jsCeilDiv1000 (ts.headI + swWitnessCfg.rateLimitWindowMs - 1000000)) ∧
      1 ≤ jsCeilDiv1000 (ts.headI + swWitnessCfg.rateLimitWindowMs - 1000000) :=
  slidingWindow_retry_after swWitnessCfg swWitnessState "u" 1000000
    (by decide) (by decide) (by decide) (by decide) (by decide)

/-- State of the `RateLimitGuard` facade, with a ghost log of the identities
passed to `release`; each log entry is one performed release call. -/
structure GuardState where
  conc : ConcurrencyTracker
  rate : SlidingWindow
  quota : List (String × QuotaInfo)
  releaseLog : List String
deriving Repr, DecidableEq

/-- Freshly constructed guard. -/
def guardInit : GuardState where
  conc := ctInit
  rate := swInit
  quota := []
  releaseLog := []

/-- Embedding of `RateLimitGuard.check`: concurrency, then the sliding window
(which stores its pruned sequences), then quota; the first rejection wins. -/
def guardCheck (cfg : RateLimitConfig) (gs : GuardState) (userKey : String)
    (now : Int) : RateLimitResult × GuardState :=
  if (ConcurrencyTracker.canAcquire cfg gs.conc userKey).allowed = false then
    (ConcurrencyTracker.canAcquire cfg gs.conc userKey, gs)
  else
    if (SlidingWindow.check cfg gs.rate userKey now).1.allowed = false then
      ((SlidingWindow.check cfg gs.rate userKey now).1,
       { gs with rate := (SlidingWindow.check cfg gs.rate userKey now).2 })
    else
      if (QuotaMonitor.check cfg gs.quota userKey now).allowed = false then
        (QuotaMonitor.check cfg gs.quota userKey now,
         { gs with rate := (SlidingWindow.check cfg gs.rate userKey now).2 })
      else
        ({ allowed := true },
         { gs with rate := (SlidingWindow.check cfg gs.rate userKey now).2 })

/-- Embedding of `RateLimitGuard.acquire`: acquire a concurrency slot and
record a request timestamp. -/
def guardAcquire (gs : GuardState) (userKey : String) (now : Int) : GuardState :=
  { gs with conc := gs.conc.acquire userKey
            rate := gs.rate.record userKey now }

/-- Embedding of `RateLimitGuard.release` with the ghost log appended. -/
def guardRelease (gs : GuardState) (userKey : String) : GuardState :=
  { gs with conc := gs.conc.release userKey
            releaseLog := gs.releaseLog ++ [userKey] }

theorem guardCheck_conc (cfg : RateLimitConfig) (gs : GuardState)
    (userKey : String) (now : Int) :
    (guardCheck cfg gs userKey now).2.conc = gs.conc := by
  unfold guardCheck
  split_ifs <;> rfl

theorem guardCheck_releaseLog (cfg : RateLimitConfig) (gs : GuardState)
    (userKey : String) (now : Int) :
    (guardCheck cfg gs userKey now).2.releaseLog = gs.releaseLog := by
  unfold guardCheck
  split_ifs <;> rfl

/-- Agent configuration (`AgentConfig`): the allowed model list and the default
model; the optional BYOK provider is irrelevant to the admission logic and is
omitted. -/
structure AgentConfig where
  allowedModels : List String
  defaultModel : String
deriving Repr, DecidableEq

/-- Agent job request (`AgentJobRequest`); the optional focus URLs and output
schema do not take part in admission or model validation and are omitted. -/
structure AgentJobRequest where
  prompt : String
  model : Option String := none
deriving Repr, DecidableEq

/-- Agent job record (`AgentJob`). -/
structure AgentJob where
  id : String
  status : String
  prompt : String
  createdAt : Int
  completedAt : Option Int := none
  error : Option String := none
  userKey : Option String := none
deriving Repr, DecidableEq

/-- Server state for the agent engine: the guard singleton and the job store. -/
structure ServerState where
  guard : GuardState
  jobs : List (String × AgentJob)
deriving Repr, DecidableEq

/-- Fresh server state. -/
def serverInit : ServerState where
  guard := guardInit
  jobs := []

/-- Result record of `startAgent`. -/
structure StartAgentResult where
  id : String
  status : String
  rateLimited : Option Bool := none
  retryAfterSeconds : Option Int := none
  error : Option String := none
deriving Repr, DecidableEq

/-- Identity key used by `startAgent`: the JavaScript expression
the or-expression of the token and the server sentinel, which also falls
through on an empty token. -/
def userKeyOf (copilotToken : Option String) : String :=
  match copilotToken with
  | some t => if t = "" then "__server__" else t
  | none => "__server__"

/-- Model chosen by `startAgent`: `request.model || config.defaultModel`. -/
def requestedModelOf (request : AgentJobRequest) (acfg : AgentConfig) : String :=
  match request.model with
  | some mdl => if mdl = "" then acfg.defaultModel else mdl
  | none => acfg.defaultModel

/-- Embedding of the synchronous part of `startAgent`: the rate-limit gate,
the model validation, the slot acquisition and the job-record creation.  The
asynchronous session body is represented by the `sessionSettle` event below,
which carries the `.finally` release. -/
def startAgent (cfg : RateLimitConfig) (acfg : AgentConfig) (st : ServerState)
    (jobId : String) (request : AgentJobRequest) (copilotToken : Option String)
    (now : Int) : StartAgentResult × ServerState :=
  if (guardCheck cfg st.guard (userKeyOf copilotToken) now).1.allowed = false then
    ({ id := jobId, status := "rate_limited", rateLimited := some true
       retryAfterSeconds := (guardCheck cfg st.guard (userKeyOf copilotToken) now).1.retryAfterSeconds
       error := (guardCheck cfg st.guard (userKeyOf copilotToken) now).1.reason },
     { st with guard := (guardCheck cfg st.guard (userKeyOf copilotToken) now).2 })
  else
    if (acfg.allowedModels.contains (requestedModelOf request acfg)) = false then
      ({ id := jobId, status := "failed"
         error := some ("Model \"" ++ requestedModelOf request acfg ++
           "\" is not in the allowed list: " ++ joinComma acfg.allowedModels) },
       { st with guard := (guardCheck cfg st.guard (userKeyOf copilotToken) now).2 })
    else
      ({ id := jobId, status := "processing" },
       { guard := guardAcquire (guardCheck cfg st.guard (userKeyOf copilotToken) now).2
           (userKeyOf copilotToken) now
         jobs := alSet st.jobs jobId
           { id := jobId, status := "processing", prompt := request.prompt
             createdAt := now, userKey := some (userKeyOf copilotToken) } })

/-- Settlement of the background session promise of a job: the `catch` branch
marks the job failed with the error text, and the `finally` branch always
releases the concurrency slot for the identity captured by the closure (the
user key of the job), regardless of the current job status. -/
def sessionSettle (st : ServerState) (jobId : String) (failed : Bool)
    (errMsg : String) (now : Int) : ServerState :=
  match alGet st.jobs jobId with
  | none => st
  | some job =>
      { guard := guardRelease st.guard ((job.userKey).getD "")
        jobs := alSet st.jobs jobId
          (if failed then
            { job with status := "failed", error := some errMsg, completedAt := some now }
          else job) }

/-- Embedding of `findStaleJobs`: ids of jobs still `processing` whose age
exceeds the timeout. -/
def findStaleJobs (jobs : List (String × AgentJob)) (timeoutMs : Int)
    (now : Int) : List String :=
  (jobs.filter (fun kv => decide (kv.2.status = "processing") &&
    decide (timeoutMs < now - kv.2.createdAt))).map Prod.fst

/-- One tick of the stale-job reaper interval: each stale job is marked failed
with the timeout message, and its concurrency slot is released using the
user key of the job (empty string when absent). -/
def reapTick (cfg : RateLimitConfig) (st : ServerState) (now : Int) : ServerState :=
  (findStaleJobs st.jobs cfg.staleJobTimeoutMs now).foldl
    (fun acc jobId =>
      match alGet acc.jobs jobId with
      | none => acc
      | some job =>
          { guard := guardRelease acc.guard ((job.userKey).getD "")
            jobs := alSet acc.jobs jobId
              { job with
                  status := "failed"
                  error := some ("Job timed out after " ++
                    toString (Int.ediv cfg.staleJobTimeoutMs 1000) ++ "s without completing.")
                  completedAt := some now } })
    st

/-- Interleaved events of the agent engine: job admission, session promise
settlement, and reaper ticks. -/
inductive AgentEvent where
  | start (jobId : String) (request : AgentJobRequest) (token : Option String) (now : Int)
  | settle (jobId : String) (failed : Bool) (errMsg : String) (now : Int)
  | reap (now : Int)
deriving Repr, DecidableEq

/-- Run a sequence of agent-engine events. -/
def runEvents (cfg : RateLimitConfig) (acfg : AgentConfig) :
    ServerState → List AgentEvent → ServerState
  | st, [] => st
  | st, AgentEvent.start jobId request token now :: rest =>
      runEvents cfg acfg (startAgent cfg acfg st jobId request token now).2 rest
  | st, AgentEvent.settle jobId failed errMsg now :: rest =>
      runEvents cfg acfg (sessionSettle st jobId failed errMsg now) rest
  | st, AgentEvent.reap now :: rest =>
      runEvents cfg acfg (reapTick cfg st now) rest

/-- Agent configuration with a single allowed model. -/
def sampleAgentConfig : AgentConfig where
  allowedModels := ["gpt-4.1"]
  defaultModel := "gpt-4.1"

/-- C6: when the gate passes and the requested model (the request model,
defaulting to the configured default) is not in the allowed list, `startAgent`
returns status failed with the error naming the model and the allowed list,
leaves the job store unchanged, acquires no concurrency slot, and performs no
release. -/
theorem startAgent_model_not_allowed (cfg : RateLimitConfig) (acfg : AgentConfig)
    (st : ServerState) (jobId : String) (request : AgentJobRequest)
    (copilotToken : Option String) (now : Int)
    (hgate : (guardCheck cfg st.guard (userKeyOf copilotToken) now).1.allowed = true)
    (hmodel : acfg.allowedModels.contains (requestedModelOf request acfg) = false) :
    (startAgent cfg acfg st jobId request copilotToken now).1 =
      { id := jobId, status := "failed"
        error := some ("Model \"" ++ requestedModelOf request acfg ++
          "\" is not in the allowed list: " ++ joinComma acfg.allowedModels) } ∧
    (startAgent cfg acfg st jobId request copilotToken now).2.jobs = st.jobs ∧
    (startAgent cfg acfg st jobId request copilotToken now).2.guard.conc = st.guard.conc ∧
    (startAgent cfg acfg st jobId request copilotToken now).2.guard.releaseLog =
      st.guard.releaseLog := by
  have hc1 : ¬((guardCheck cfg st.guard (userKeyOf copilotToken) now).1.allowed = false) := by
    rw [hgate]
    simp
  unfold startAgent
  rw [if_neg hc1, if_pos hmodel]
  exact ⟨rfl, rfl, guardCheck_conc cfg st.guard (userKeyOf copilotToken) now,
    guardCheck_releaseLog cfg st.guard (userKeyOf copilotToken) now⟩

theorem startAgent_model_not_allowed_witness :
    ((startAgent defaultRateLimitConfig sampleAgentConfig serverInit "job-1"
        { prompt := "p", model := some "nonexistent" } none 0).1 =
      { id := "job-1", status := "failed"
        error := some ("Model \"" ++
          requestedModelOf { prompt := "p", model := some "nonexistent" } sampleAgentConfig ++
          "\" is not in the allowed list: " ++ joinComma sampleAgentConfig.allowedModels) } ∧
    (startAgent defaultRateLimitConfig sampleAgentConfig serverInit "job-1"
        { prompt := "p", model := some "nonexistent" } none 0).2.jobs = serverInit.jobs ∧
    (startAgent defaultRateLimitConfig sampleAgentConfig serverInit "job-1"
        { prompt := "p", model := some "nonexistent" } none 0).2.guard.conc =
      serverInit.guard.conc ∧
    (startAgent defaultRateLimitConfig sampleAgentConfig serverInit "job-1"
        { prompt := "p", model := some "nonexistent" } none 0).2.guard.releaseLog =
      serverInit.guard.releaseLog) ∧
    (startAgent defaultRateLimitConfig sampleAgentConfig serverInit "job-1"
        { prompt := "p", model := some "nonexistent" } none 0).1.error =
      some "Model \"nonexistent\" is not in the allowed list: gpt-4.1" :=
  ⟨startAgent_model_not_allowed defaultRateLimitConfig sampleAgentConfig serverInit
    "job-1" { prompt := "p", model := some "nonexistent" } none 0
    (by decide) (by decide), by decide⟩

/-- Trace exercising the reaper and the session settlement on the same
admitted job: the job is admitted at time 0, reaped one millisecond past the
stale timeout while still processing, and its session promise settles
afterwards. -/
def doubleReleaseTrace : List AgentEvent :=
  [AgentEvent.start "job-1" { prompt := "p" } none 0,
   AgentEvent.reap 600001,
   AgentEvent.settle "job-1" true "boom" 600002]

/-- C1 (evaluation at the failing schedule): one job is admitted, yet the
guard performs two releases for its identity, because the reaper releases the
slot of the stale job and the unconditional finally-release of the session
promise runs again when the session later settles; no finalized flag prevents
the second release. -/
theorem agent_job_double_release :
    ((runEvents defaultRateLimitConfig sampleAgentConfig serverInit
        doubleReleaseTrace).guard.releaseLog = ["__server__", "__server__"]) ∧
    ((runEvents defaultRateLimitConfig sampleAgentConfig serverInit
        doubleReleaseTrace).jobs.map Prod.fst = ["job-1"]) := by
  decide

/-- Simplified HTML forest for the parse handed to the SPA detector, encoded
as a single inductive so every traversal is plain structural recursion: a
forest is empty, or a text node followed by its siblings, or an element (tag
name, id attribute with the empty string for absent, children) followed by its
siblings. -/
inductive HDoc where
  | nil
  | text (s : String) (rest : HDoc)
  | elem (tag : String) (id : String) (children : HDoc) (rest : HDoc)

/-- All character data of the forest (cheerio `.text()`). -/
def textAllD : HDoc → String
  | HDoc.nil => ""
  | HDoc.text s rest => s ++ textAllD rest
  | HDoc.elem _ _ cs rest => textAllD cs ++ textAllD rest

/-- Character data excluding `script`, `style` and `noscript` subtrees: the
visible text the detector computes after removing those elements from a clone
of the tree. -/
def visTextD : HDoc → String
  | HDoc.nil => ""
  | HDoc.text s rest => s ++ visTextD rest
  | HDoc.elem tag _ cs rest =>
      (if tag = "script" ∨ tag = "style" ∨ tag = "noscript" then ""
       else visTextD cs) ++ visTextD rest

/-- Selector match on an element: selectors beginning with `#` match by id
attribute, plain selectors such as `app-root` match by tag name. -/
def selMatchesE (sel tag id : String) : Bool :=
  if strBegins sel "#" then decide (id = String.mk (sel.data.drop 1))
  else decide (tag = sel)

/-- Number of elements of the forest matching the selector (the length of the
cheerio collection `$(sel)`). -/
def selectCountD (sel : String) : HDoc → Nat
  | HDoc.nil => 0
  | HDoc.text _ rest => selectCountD sel rest
  | HDoc.elem tag id cs rest =>
      (if selMatchesE sel tag id then 1 else 0) +
        selectCountD sel cs + selectCountD sel rest

/-- Concatenated text of all elements matching the selector (cheerio
`$(sel).text()` over the whole collection, in document order). -/
def selectTextD (sel : String) : HDoc → String
  | HDoc.nil => ""
  | HDoc.text _ rest => selectTextD sel rest
  | HDoc.elem tag id cs rest =>
      (if selMatchesE sel tag id then textAllD cs else "") ++
        selectTextD sel cs ++ selectTextD sel rest

/-- Length contributed by `script` elements: the source sums the inner HTML
length of every `script` element; script elements hold character data, so the
inner HTML is their text content. -/
def scriptLenD : HDoc → Nat
  | HDoc.nil => 0
  | HDoc.text _ rest => scriptLenD rest
  | HDoc.elem tag _ cs rest =>
      (if tag = "script" then (textAllD cs).length else 0) +
        scriptLenD cs + scriptLenD rest

/-- Loading phrases matched case-insensitively against the visible body text
(`SPA_LOADING_PATTERNS`). -/
def spaLoadingPatterns : List String :=
  ["loading...", "loading…", "please wait", "just a moment",
   "checking your browser", "one moment please", "redirecting",
   "enable javascript", "javascript is required", "javascript must be enabled",
   "this app requires javascript", "you need to enable javascript", "noscript"]

/-- Root-container selectors of common SPA frameworks (`SPA_ROOT_SELECTORS`). -/
def spaRootSelectors : List String :=
  ["#root", "#app", "#__next", "#__nuxt", "#svelte", "app-root",
   "#___gatsby", "#main-app"]

/-- Rule 1 root-container scan of `detectSPASkeleton`: the first selector with
at least one match whose combined inner text, collapsed, is shorter than the
minimum meaningful length yields a reason.  A matched element whose text
inside a cheerio collection is read with `.text()` over all matches. -/
def findRootReason (doc : HDoc) : Option String :=
  spaRootSelectors.findSome? (fun sel =>
    if 0 < selectCountD sel doc then
      if (collapseWs (selectTextD sel doc)).length < 200 then
        some ("SPA root container \"" ++ sel ++ "\" with minimal content (" ++
          toString (collapseWs (selectTextD sel doc)).length ++ " chars)")
      else none
    else none)

/-- Rule 1 of `detectSPASkeleton`: under two hundred characters of visible
text, look for a sparse root container, then a loading phrase, then a
near-empty body. -/
def spaRule1 (doc : HDoc) : Option String :=
  if (collapseWs (visTextD doc)).length < 200 then
    match findRootReason doc with
    | some r => some r
    | none =>
        match spaLoadingPatterns.find?
            (fun p => strIncludes (lowerStr (collapseWs (visTextD doc))) p) with
        | some p => some ("Loading indicator detected: \"" ++ p ++ "\"")
        | none =>
            if (collapseWs (visTextD doc)).length < 50 then
              some ("Near-empty body text (" ++
                toString (collapseWs (visTextD doc)).length ++ " chars)")
            else none
  else none

/-- Rule 2 of `detectSPASkeleton`: a loading phrase in a page whose visible
text is shorter than five hundred characters. -/
def spaRule2 (doc : HDoc) : Option String :=
  if (collapseWs (visTextD doc)).length < 500 then
    match spaLoadingPatterns.find?
        (fun p => strIncludes (lowerStr (collapseWs (visTextD doc))) p) with
    | some p => some ("Short page with loading indicator: \"" ++ p ++ "\"")
    | none => none
  else none

/-- Rule 3 of `detectSPASkeleton`: a script-heavy page, with the float
comparison `scriptContent / htmlLength > 0.65` modelled exactly as
`100 * scriptContent > 65 * htmlLength` and the rounded percentage as
`floor(100 * ratio + 1/2)`. -/
def spaRule3 (rawHtml : String) (doc : HDoc) : Option String :=
  if 1000 < rawHtml.length ∧ 65 * rawHtml.length < 100 * scriptLenD doc ∧
      (collapseWs (visTextD doc)).length < 200 then
    some ("Script-heavy page (" ++
      toString ((200 * scriptLenD doc + rawHtml.length) / (2 * rawHtml.length)) ++
      "% scripts, " ++ toString (collapseWs (visTextD doc)).length ++ " chars text)")
  else none

/-- Embedding of `detectSPASkeleton`: the first matching rule returns its
reason; the cheerio parse of the raw HTML is supplied as the forest of the
document body, and the detector itself reads only the length of the raw HTML
string. -/
def detectSPASkeleton (rawHtml : String) (doc : HDoc) : Option String :=
  match spaRule1 doc with
  | some r => some r
  | none =>
      match spaRule2 doc with
      | some r => some r
      | none => spaRule3 rawHtml doc

/-- C3 (amended): the SPA-shell detector returns null for every input whose
visible text length (after stripping script, style and noscript content and
collapsing whitespace) is at least 200, which has no SPA root container, whose
script-content-to-raw-HTML ratio is at most 0.65, and which additionally, when
the visible text is shorter than 500 characters, contains no SPA loading
phrase in its lowercased visible text. -/
theorem detectSPASkeleton_null_on_real_content (rawHtml : String) (doc : HDoc)
    (hlen : 200 ≤ (collapseWs (visTextD doc)).length)
    (hroot : ∀ sel ∈ spaRootSelectors, selectCountD sel doc = 0)
    (hratio : 100 * scriptLenD doc ≤ 65 * rawHtml.length)
    (hpat : 500 ≤ (collapseWs (visTextD doc)).length ∨
      ∀ p ∈ spaLoadingPatterns,
        strIncludes (lowerStr (collapseWs (visTextD doc))) p = false) :
    detectSPASkeleton rawHtml doc = none := by
  have h1 : spaRule1 doc = none := by
    unfold spaRule1
    rw [if_neg (by omega)]
  have h2 : spaRule2 doc = none := by
    rcases hpat with h5 | hnone
    · unfold spaRule2
      rw [if_neg (by omega)]
    · unfold spaRule2
      by_cases hlt : (collapseWs (visTextD doc)).length < 500
      · rw [if_pos hlt]
        have hfind : spaLoadingPatterns.find?
            (fun p => strIncludes (lowerStr (collapseWs (visTextD doc))) p) = none :=
          List.find?_eq_none.mpr (fun p hp => by simp [hnone p hp])
        rw [hfind]
      · rw [if_neg hlt]
  have h3 : spaRule3 rawHtml doc = none := by
    unfold spaRule3
    rw [if_neg ?hneg]
    case hneg =>
      rintro ⟨-, -, hc⟩
      omega
  unfold detectSPASkeleton
  rw [h1, h2, h3]

/-- Document of the counterexample: a single paragraph with 245 characters of
visible prose that contains the phrase "please wait", with no SPA root
container and no scripts. -/
def spaCounterDoc : HDoc :=
  HDoc.elem "p" ""
    (HDoc.text ("Please wait while the support team reviews this request. The queue is long today and the expected handling time is several minutes. Thank you for the patience. This page lists the current status of the request and updates itself once per minute.") HDoc.nil) HDoc.nil

/-- Raw HTML standing for the counterexample document; only its length is read
by the detector. -/
def spaCounterRaw : String :=
  "<html><body><p>about two hundred and fifty chars of prose</p></body></html>"

/-- C3 (counterexample): a page whose visible text is 245 characters long (at
least the 200-character minimum), with no SPA root container and zero script
ratio, is still flagged by the detector, because rule 2 matches the phrase
"please wait" in any page shorter than 500 characters. -/
theorem detectSPASkeleton_false_positive_short_page :
    200 ≤ (collapseWs (visTextD spaCounterDoc)).length ∧
    (∀ sel ∈ spaRootSelectors, selectCountD sel spaCounterDoc = 0) ∧
    100 * scriptLenD spaCounterDoc ≤ 65 * spaCounterRaw.length ∧
    detectSPASkeleton spaCounterRaw spaCounterDoc =
      some "Short page with loading indicator: \"please wait\"" := by
  decide

/-- Document of the witness: a 216-character news paragraph with none of the
loading phrases. -/
def spaWitnessDoc : HDoc :=
  HDoc.elem "p" ""
    (HDoc.text ("The committee met on Tuesday and approved the budget for the coming year. Spending on roads and bridges rises by four percent, while the library fund stays flat. A public hearing on the school annex is set for March.") HDoc.nil) HDoc.nil

theorem detectSPASkeleton_null_on_real_content_witness :
    detectSPASkeleton spaCounterRaw spaWitnessDoc = none :=
  detectSPASkeleton_null_on_real_content spaCounterRaw spaWitnessDoc
    (by decide) (by decide) (by decide) (Or.inr (by decide))

/-- Data payload of a local scrape result. -/
structure LocalScrapeData where
  markdown : Option String := none
  html : Option String := none
  rawHtml : Option String := none
  links : Option (List String) := none
deriving Repr, DecidableEq

/-- Result shape of `localScrape` (`LocalScrapeResult`). -/
structure LocalScrapeResult where
  success : Bool
  error : Option String := none
  data : Option LocalScrapeData := none
deriving Repr, DecidableEq

/-- Result returned by `localScrape` when the SPA detector produced a reason:
a failure result carrying the SPA_SKELETON_DETECTED error with the partial
data still attached. -/
def spaSkeletonResult (data : LocalScrapeData) : LocalScrapeResult where
  success := false
  error := some "SPA_SKELETON_DETECTED"
  data := some data

/-- Rendering of a local result by the `asText` helper of the tool layer
(`JSON.stringify(data, null, 2)`), abridged to the success flag and the error
field of the model; the error string is embedded verbatim when present. -/
def asTextLocal (r : LocalScrapeResult) : String :=
  "\x7b \"success\": " ++ (if r.success then "true" else "false") ++
    (match r.error with
     | some e => ", \"error\": \"" ++ e ++ "\""
     | none => "") ++ " \x7d"

/-- Embedding of the local-proxy branch of the `scorch_scrape` tool handler:
after `localScrape` returns, the tool falls back to the engine response only
when the failure is `FORMAT_NEEDS_SERVER`; every other result, including the
SPA-detected failure, is rendered and returned to the MCP caller. -/
def scorchScrapeLocalBranch (localResult : LocalScrapeResult)
    (engineResponse : String) : String :=
  if localResult.success = false ∧ localResult.error = some "FORMAT_NEEDS_SERVER" then
    engineResponse
  else asTextLocal localResult

/-- C4 (evaluation at the failing input): when the local scrape of a URL is
detected as an un-hydrated SPA shell, the scrape tool does not fall back to
the engine; it returns the rendered local failure, whose text carries the
SPA_SKELETON_DETECTED error, to the MCP caller — whatever the engine would
have answered. -/
theorem scrape_tool_surfaces_spa_detection (data : LocalScrapeData)
    (engineResponse : String) :
    scorchScrapeLocalBranch (spaSkeletonResult data) engineResponse =
      asTextLocal (spaSkeletonResult data) ∧
    strIncludes (scorchScrapeLocalBranch (spaSkeletonResult data) engineResponse)
      "SPA_SKELETON_DETECTED" = true := by
  have hstr : asTextLocal (spaSkeletonResult data) =
      "\x7b \"success\": false, \"error\": \"SPA_SKELETON_DETECTED\" \x7d" := rfl
  have hbr : scorchScrapeLocalBranch (spaSkeletonResult data) engineResponse =
      asTextLocal (spaSkeletonResult data) := by
    unfold scorchScrapeLocalBranch
    rw [if_neg ?hne]
    case hne =>
      rintro ⟨-, herr⟩
      rw [show (spaSkeletonResult data).error = some "SPA_SKELETON_DETECTED" from rfl] at herr
      exact absurd herr (by decide)
  refine ⟨hbr, ?_⟩
  rw [hbr, hstr]
  apply strIncludes_of_parts _
    "\x7b \"success\": false, \"error\": \"" "SPA_SKELETON_DETECTED" "\" \x7d"
  decide

/-- Keep test for anchor hrefs in the links extraction: exclude hrefs starting
with a fragment marker or the javascript scheme. -/
def keepHref (h : String) : Bool :=
  !(strBegins h "#") && !(strBegins h "javascript:")

/-- Split a character list at the first occurrence of the pattern, returning
the part before it and the part after it. -/
def findSplit (pat : List Char) : List Char → Option (List Char × List Char)
  | [] => if pat.isEmpty then some ([], []) else none
  | c :: rest =>
      if charsBegin (c :: rest) pat then some ([], (c :: rest).drop pat.length)
      else
        match findSplit pat rest with
        | some (before, after) => some (c :: before, after)
        | none => none

/-- Scheme-and-host part of an absolute URL: everything up to the first slash
after the scheme separator. -/
def urlOrigin (base : String) : String :=
  match findSplit "://".data base.data with
  | some (scheme, rest) =>
      String.mk scheme ++ "://" ++ String.mk (rest.takeWhile (fun c => !(c = '/')))
  | none => base

/-- Base URL truncated after its last slash: the directory of the base path. -/
def urlDir (base : String) : String :=
  if (base.data.reverse.dropWhile (fun c => !(c = '/'))).isEmpty then base ++ "/"
  else String.mk (base.data.reverse.dropWhile (fun c => !(c = '/'))).reverse

/-- Resolution of an href against a base URL, modelling `new URL(href, base)`
for the hierarchical http(s) cases used here: absolute hrefs pass through,
hrefs beginning with a slash resolve against the origin of the base, and other
hrefs resolve against the directory of the base.  The resolver is total, so
the try/catch fallback of the source (pushing the raw href) is never taken. -/
def resolveUrl (base href : String) : String :=
  if strIncludes href "://" = true then href
  else if strBegins href "/" = true then urlOrigin base ++ href
  else urlDir base ++ href

/-- Document-order collection loop of the `links` format in `localScrape`:
each `a[href]` element contributes its href resolved against the base unless
the href starts with `#` or `javascript:`. -/
def collectLinks (base : String) : List String → List String
  | [] => []
  | h :: rest =>
      if keepHref h then resolveUrl base h :: collectLinks base rest
      else collectLinks base rest

/-- Embedding of the `links` output of `localScrape`: the hrefs of the
anchors of the document, in order, filtered, resolved against the REQUESTED
url (the `url` parameter of `localScrape`), then deduplicated by a `Set`
keeping first occurrences.  The source resolves with `new URL(href, url)`; it
does not use the post-redirect `response.url` here. -/
def localScrapeLinks (anchorHrefs : List String) (requestedUrl : String) :
    List String :=
  dedupFirst (collectLinks requestedUrl anchorHrefs)

/-- Modelled from the specification wording for the links output: deduplicated
absolute URLs from the anchors, excluding fragment and javascript hrefs, with
relative URLs resolved against the final (post-redirect) URL of the fetch. -/
def linksSpecFinalUrl (anchorHrefs : List String) (finalUrl : String) :
    List String :=
  dedupFirst ((anchorHrefs.filter keepHref).map (resolveUrl finalUrl))

/-- C8 (counterexample): with a fetch of `http://a.example/` that redirects to
the final URL `http://b.example/page/`, the relative href `x.html` is resolved
by the code against the requested URL, not against the final URL as the claim
states. -/
theorem localScrapeLinks_base_counterexample :
    localScrapeLinks ["x.html"] "http://a.example/" = ["http://a.example/x.html"] ∧
    linksSpecFinalUrl ["x.html"] "http://b.example/page/" =
      ["http://b.example/page/x.html"] ∧
    ¬(localScrapeLinks ["x.html"] "http://a.example/" =
      linksSpecFinalUrl ["x.html"] "http://b.example/page/") := by
  decide

/-- C8 (amended): the links output is the deduplicated list (first occurrence
kept, document order preserved) of the anchor hrefs, excluding those starting
with `#` or `javascript:`, each resolved against the requested URL passed to
`localScrape`. -/
theorem localScrapeLinks_spec (anchorHrefs : List String) (requestedUrl : String) :
    localScrapeLinks anchorHrefs requestedUrl =
      dedupFirst ((anchorHrefs.filter keepHref).map (resolveUrl requestedUrl)) := by
  unfold localScrapeLinks
  congr 1
  induction anchorHrefs with
  | nil => rfl
  | cons h rest ih =>
      by_cases hk : keepHref h
      · simp [collectLinks, hk, ih]
      · simp [collectLinks, hk, ih]

/-- Outcome of the awaited `fetch` call inside `localScrape`. -/
inductive FetchOutcome where
  | ok (finalUrl : String) (status : Int) (body : String)
  | abortErr
  | netErr (msg : String)
deriving Repr, DecidableEq

/-- Failure surface of the TLS-handling slice of `localScrape`. -/
structure LocalFetchStatus where
  success : Bool
  error : Option String := none
deriving Repr, DecidableEq

/-- Embedding of the TLS-flag handling of `localScrape`: when TLS verification
is skipped, the process-wide `NODE_TLS_REJECT_UNAUTHORIZED` variable is set to
"0" before the fetch and deleted right after a fetch that resolves, while the
catch branch (abort timeout or network error) returns a structured failure
without touching the variable.  The pair returned is the result together with
the final value of the variable. -/
def localScrapeTlsSlice (skipTls : Bool) (env0 : Option String)
    (outcome : FetchOutcome) (timeoutMs : Int) : LocalFetchStatus × Option String :=
  let env1 := if skipTls then some "0" else env0
  match outcome with
  | FetchOutcome.ok _ _ _ =>
      ({ success := true }, if skipTls then none else env1)
  | FetchOutcome.abortErr =>
      ({ success := false
         error := some ("Timeout after " ++ toString timeoutMs ++ "ms") }, env1)
  | FetchOutcome.netErr msg =>
      ({ success := false, error := some msg }, env1)

/-- C10: with `skipTlsVerification = true`, a throwing fetch (timeout abort or
network error) yields a structured failure result while
`NODE_TLS_REJECT_UNAUTHORIZED` remains set to "0" — TLS verification stays
disabled for subsequent fetches in the process; the variable is deleted only
on the non-throwing path. -/
theorem localScrape_tls_flag_leak (env0 : Option String) (timeoutMs : Int) :
    ((localScrapeTlsSlice true env0 FetchOutcome.abortErr timeoutMs).2 = some "0" ∧
      (localScrapeTlsSlice true env0 FetchOutcome.abortErr timeoutMs).1 =
        { success := false
          error := some ("Timeout after " ++ toString timeoutMs ++ "ms") }) ∧
    (∀ msg, (localScrapeTlsSlice true env0 (FetchOutcome.netErr msg) timeoutMs).2 =
        some "0" ∧
      (localScrapeTlsSlice true env0 (FetchOutcome.netErr msg) timeoutMs).1 =
        { success := false, error := some msg }) ∧
    (∀ u st b, (localScrapeTlsSlice true env0 (FetchOutcome.ok u st b) timeoutMs).2 =
      none) :=
  ⟨⟨rfl, rfl⟩, fun _ => ⟨rfl, rfl⟩, fun _ _ _ => rfl⟩

end ScorchCrawl
